import Mathlib

/-!
# Verification of kube-janitor-go core logic

Shallow embedding of the cleanup controller's pure core:

* the duration parsers (`time.ParseDuration` from the Go standard library, and
  the repository's `ParseExtendedDuration` / `parseExtendedDuration`),
* the expiration-timestamp parser `parseExpirationTime`,
* the deletion decision function `shouldDelete`,
* the resource/namespace filter (`NewResourceFilter`, `ShouldProcessResource`,
  `ShouldProcessNamespace`),
* the rule engine (`rules.New`, `Engine.Evaluate`, `evaluateRule`,
  `resourceMatches`, `pluralize`),
* the per-item worker step `processItem`, modelled as a pure trace of its
  side effects.

Machine integers are modelled as `Nat`/`Int` with the explicit overflow
checks the Go code performs.  Times are wall-clock instants in nanoseconds
since the Unix epoch (`Int`); `time.Duration` values are `Int` nanoseconds
restricted to the int64 range by the same saturation/overflow logic Go uses.
-/

namespace KubeJanitor

/-- Equality of `Except` results is decidable when it is on both sides. -/
instance {ε α : Type} [DecidableEq ε] [DecidableEq α] : DecidableEq (Except ε α) := fun a b =>
  match a, b with
  | .ok x, .ok y => decidable_of_iff (x = y) (by simp)
  | .error x, .error y => decidable_of_iff (x = y) (by simp)
  | .ok _, .error _ => isFalse (by simp)
  | .error _, .ok _ => isFalse (by simp)

/-- Largest Go `time.Duration` (int64 nanoseconds): `2^63 - 1`. -/
def maxDuration : Int := 2 ^ 63 - 1

/-- Smallest Go `time.Duration`: `-2^63`. -/
def minDuration : Int := -(2 ^ 63)

/-!
## Go `time.ParseDuration`

Model of the Go standard library parser (`time/format.go`), which both
`ParseExtendedDuration` in `internal/janitor/janitor.go` and
`parseExtendedDuration` in the rules package try first.  The grammar is
`[-+]?([0-9]*(\.[0-9]*)?[a-z]+)+` with units ns/us/µs/μs/ms/s/m/h, uint64
accumulation and the overflow checks reproduced below.  The only deliberate
abstraction: Go adds a fractional part as
`uint64(float64(f) * (float64(unit)/scale))`; we compute `f * unit / scale`
in exact integer arithmetic, which agrees with the float computation at
every value appearing in the theorems of this file (the factors involved
are exactly representable in binary64 there).
-/

/-- Nanoseconds per unit: the `unitMap` of Go `time.ParseDuration`. -/
def unitMapNs (u : String) : Option Nat :=
  if u = "ns" then some 1
  else if u = "us" then some 1000
  else if u = "µs" then some 1000
  else if u = "μs" then some 1000
  else if u = "ms" then some 1000000
  else if u = "s" then some 1000000000
  else if u = "m" then some 60000000000
  else if u = "h" then some 3600000000000
  else none

/-- Go `leadingInt`: consume leading digits, failing (`none`) on the same
overflow conditions Go checks. Returns the value and the rest. -/
def leadingInt (x : Nat) : List Char → Option (Nat × List Char)
  | [] => some (x, [])
  | c :: cs =>
    if c.isDigit then
      if x > 2 ^ 63 / 10 then none
      else
        let x' := x * 10 + (c.toNat - 48)
        if x' > 2 ^ 63 then none
        else leadingInt x' cs
    else some (x, c :: cs)

/-- Go `leadingFraction`: consume leading digits into `(f, scale)`; on
overflow further digits are ignored (no error), exactly as in Go.  `scale`
is the power of ten of consumed (non-ignored) digits. -/
def leadingFraction (x scale : Nat) (overflow : Bool) :
    List Char → Nat × Nat × List Char
  | [] => (x, scale, [])
  | c :: cs =>
    if c.isDigit then
      if overflow then leadingFraction x scale true cs
      else if x > (2 ^ 63 - 1) / 10 then leadingFraction x scale true cs
      else
        let y := x * 10 + (c.toNat - 48)
        if y > 2 ^ 63 then leadingFraction x scale true cs
        else leadingFraction y (scale * 10) false cs
    else (x, scale, c :: cs)

/-- One pass of the `for s != ""` loop of Go `ParseDuration`, with fuel
(the loop consumes at least one character per iteration, so fuel equal to
the length of the remaining input never runs out). Accumulates `d` in
nanoseconds. -/
def parseDurationLoop : Nat → Nat → List Char → Option Nat
  | _, d, [] => some d
  | 0, _, _ :: _ => none
  | fuel + 1, d, c :: cs =>
    -- the next character must be [0-9.]
    if c.isDigit || c == '.' then
      match leadingInt 0 (c :: cs) with
      | none => none
      | some (v, s1) =>
        let pre := s1.length ≠ (c :: cs).length
        let fr : Nat × Nat × List Char × Bool :=
          match s1 with
          | '.' :: rest =>
            let (f, sc, r) := leadingFraction 0 1 false rest
            (f, sc, r, decide (r.length ≠ rest.length))
          | _ => (0, 1, s1, false)
        let f := fr.1
        let scale := fr.2.1
        let s2 := fr.2.2.1
        let post := fr.2.2.2
        if !pre && !post then none
        else
          let u := s2.takeWhile fun ch => !(ch.isDigit || ch == '.')
          let s3 := s2.dropWhile fun ch => !(ch.isDigit || ch == '.')
          if u.isEmpty then none
          else
            match unitMapNs (String.mk u) with
            | none => none
            | some unit =>
              if v > 2 ^ 63 / unit then none
              else
                let v1 := v * unit
                let v2 := if f > 0 then v1 + f * unit / scale else v1
                if f > 0 && v2 > 2 ^ 63 then none
                else
                  let d' := d + v2
                  if d' > 2 ^ 63 then none
                  else parseDurationLoop fuel d' s3
    else none

/-- Model of Go `time.ParseDuration` (nanoseconds, int64 range). -/
def goParseDuration (s : String) : Option Int :=
  let cs0 := s.data
  let neg : Bool :=
    match cs0 with
    | c :: _ => c == '-'
    | [] => false
  let cs :=
    match cs0 with
    | c :: rest => if c == '-' || c == '+' then rest else cs0
    | [] => cs0
  if cs = ['0'] then some 0
  else if cs.isEmpty then none
  else
    match parseDurationLoop cs.length 0 cs with
    | none => none
    | some d =>
      if neg then some (-(d : Int))
      else if (d : Int) > maxDuration then none
      else some (d : Int)

example : goParseDuration "1h" = some 3600000000000 := by decide
example : goParseDuration "0s" = some 0 := by decide
example : goParseDuration "7d" = none := by decide
example : goParseDuration "invalid" = none := by decide
example : goParseDuration "" = none := by decide
example : goParseDuration "1month2w3d12h30m" = none := by decide
example : goParseDuration "2562047h47m16.854775807s" = some (2 ^ 63 - 1) := by decide

/-!
## `ParseExtendedDuration`

Model of `ParseExtendedDuration` (`internal/janitor/janitor.go`) and of the
identical package-private `parseExtendedDuration` in the rules package.
The Go code tries `time.ParseDuration` first and otherwise tokenizes with
the regex `(\d+(?:\.\d+)?)\s*(months?|w|d|h|m|s|ms|us|µs|ns)` via
`FindAllStringSubmatch` (leftmost, non-overlapping matches); the model
below scans the input the same way, with the regex's ordered alternation
for the unit and the optional greedy fraction.  `strconv.ParseFloat` and
the `value * float64(unitNs)` multiplication are modelled in exact integer
arithmetic (`v * unit + f * unit / scale`), which agrees with binary64 at
every value appearing in the theorems of this file.
-/

/-- A single regex match: `whole` is `match[0]` (number, optional
whitespace, unit), `intPart`/`fracPart` the digits of `match[1]`,
`unit` is `match[2]`. -/
structure DurToken where
  whole : List Char
  intPart : List Char
  fracPart : List Char
  unit : List Char
  deriving Repr, DecidableEq

/-- The characters matched by `\s` in Go regexp: `[\t\n\f\r ]`. -/
def isGoSpace (c : Char) : Bool :=
  c == ' ' || c == '\t' || c == '\n' || c == '\x0c' || c == '\r'

/-- Drop a literal from the front of the input, or fail. -/
def dropLit : List Char → List Char → Option (List Char)
  | [], cs => some cs
  | p :: ps, c :: cs => if c = p then dropLit ps cs else none
  | _ :: _, [] => none

/-- The regex alternation `months?|w|d|h|m|s|ms|us|µs|ns`, in the order a
backtracking engine tries it (`months?` greedily prefers `months`). -/
def unitAlternatives : List (List Char) :=
  [['m', 'o', 'n', 't', 'h', 's'], ['m', 'o', 'n', 't', 'h'],
   ['w'], ['d'], ['h'], ['m'], ['s'],
   ['m', 's'], ['u', 's'], ['µ', 's'], ['n', 's']]

/-- First unit alternative that is a prefix of the input. -/
def matchUnit : List (List Char) → List Char → Option (List Char × List Char)
  | [], _ => none
  | u :: us, cs =>
    match dropLit u cs with
    | some rest => some (u, rest)
    | none => matchUnit us cs

/-- Match `\s*` then the unit alternation; returns the matched whitespace,
unit, and rest. -/
def matchSpacesUnit (cs : List Char) : Option (List Char × List Char × List Char) :=
  match matchUnit unitAlternatives (cs.dropWhile isGoSpace) with
  | some (u, rest) => some (cs.takeWhile isGoSpace, u, rest)
  | none => none

/-- The fraction arm of the regex: `\.\d+` followed by `\s*` and the
unit, given the integer digits `ds` and the input after them. -/
def matchTokenFrac (ds r1 : List Char) : Option (DurToken × List Char) :=
  match r1 with
  | c :: r2 =>
    if c = '.' then
      if (r2.takeWhile Char.isDigit).isEmpty then none
      else
        match matchSpacesUnit (r2.dropWhile Char.isDigit) with
        | some (sp, u, rest) =>
          some (⟨ds ++ '.' :: r2.takeWhile Char.isDigit ++ sp ++ u,
                 ds, r2.takeWhile Char.isDigit, u⟩, rest)
        | none => none
    else none
  | [] => none

/-- Try to match the whole regex at the current position.  The greedy
number may backtrack out of its optional fraction (the only productive
backtracking: no unit starts with a digit, a dot, or whitespace). -/
def matchTokenAt (cs : List Char) : Option (DurToken × List Char) :=
  if (cs.takeWhile Char.isDigit).isEmpty then none
  else
    match matchTokenFrac (cs.takeWhile Char.isDigit) (cs.dropWhile Char.isDigit) with
    | some t => some t
    | none =>
      match matchSpacesUnit (cs.dropWhile Char.isDigit) with
      | some (sp, u, rest) =>
        some (⟨cs.takeWhile Char.isDigit ++ sp ++ u, cs.takeWhile Char.isDigit, [], u⟩, rest)
      | none => none

/-- `FindAllStringSubmatch`: scan left to right, taking non-overlapping
matches; on failure advance one character.  Fuel is the input length
(every match consumes at least one character). -/
def findTokensAux : Nat → List Char → List DurToken
  | _, [] => []
  | 0, _ :: _ => []
  | fuel + 1, c :: cs =>
    match matchTokenAt (c :: cs) with
    | some (t, rest) => t :: findTokensAux fuel rest
    | none => findTokensAux fuel cs

/-- All regex matches of the extended-duration token pattern. -/
def findTokens (cs : List Char) : List DurToken :=
  findTokensAux cs.length cs

/-- Digits to `Nat`. -/
def digitsToNat (ds : List Char) : Nat :=
  ds.foldl (fun a c => a * 10 + (c.toNat - 48)) 0

/-- Nanoseconds for one unit of the extended grammar: the `switch unit`
of the Go code (`month ≈ 30d`, `w = 7d`, `d = 24h`). -/
def extUnitNs (u : List Char) : Option Nat :=
  if u = ['m', 'o', 'n', 't', 'h'] ∨ u = ['m', 'o', 'n', 't', 'h', 's'] then
    some (30 * 24 * 3600000000000)
  else if u = ['w'] then some (7 * 24 * 3600000000000)
  else if u = ['d'] then some (24 * 3600000000000)
  else if u = ['h'] then some 3600000000000
  else if u = ['m'] then some 60000000000
  else if u = ['s'] then some 1000000000
  else if u = ['m', 's'] then some 1000000
  else if u = ['u', 's'] ∨ u = ['µ', 's'] then some 1000
  else if u = ['n', 's'] then some 1
  else none

/-- Contribution of one token: `time.Duration(value * float64(unitNs))`,
in exact arithmetic. -/
def tokenNs (t : DurToken) : Option Nat :=
  match extUnitNs t.unit with
  | none => none
  | some unit =>
    let v := digitsToNat t.intPart
    let f := digitsToNat t.fracPart
    let scale := 10 ^ t.fracPart.length
    some (v * unit + f * unit / scale)

/-- The accumulation loop over all matches; an unknown unit yields the
`unknown time unit` error (unreachable for regex-produced tokens, but kept
from the source). -/
def sumTokens : List DurToken → Except String Nat
  | [] => .ok 0
  | t :: ts =>
    match tokenNs t with
    | none => .error ("unknown time unit: " ++ String.mk t.unit)
    | some n =>
      match sumTokens ts with
      | .error e => .error e
      | .ok m => .ok (n + m)

/-- `strings.ReplaceAll(s, " ", "")`: remove space characters (only
`' '`, exactly as the source does). -/
def stripSpaces (cs : List Char) : List Char :=
  cs.filter fun c => c ≠ ' '

/-- Model of `ParseExtendedDuration` from `internal/janitor/janitor.go`
(also `parseExtendedDuration` in the rules package, which is the same
code): try the native parser; otherwise tokenize with the regex, require
at least one match, sum the token durations, and reject unless the
whitespace-stripped input equals the whitespace-stripped concatenation of
the matched substrings. -/
def ParseExtendedDuration (s : String) : Except String Int :=
  match goParseDuration s with
  | some d => .ok d
  | none =>
    let toks := findTokens s.data
    if toks.isEmpty then .error ("invalid duration format: " ++ s)
    else
      match sumTokens toks with
      | .error e => .error e
      | .ok total =>
        let consumed := (toks.map DurToken.whole).flatten
        if stripSpaces s.data ≠ stripSpaces consumed then
          .error ("invalid duration format: " ++ s)
        else .ok (total : Int)

example : ParseExtendedDuration "1month2w3d12h30m" = .ok 4105800000000000 := by decide
example : ParseExtendedDuration "7d" = .ok 604800000000000 := by decide
example : ParseExtendedDuration "0s" = .ok 0 := by decide
example : ParseExtendedDuration "2w3x" = .error "invalid duration format: 2w3x" := by decide
example : ParseExtendedDuration "invalid" = .error "invalid duration format: invalid" := by decide
example : ParseExtendedDuration "" = .error "invalid duration format: " := by decide
example : ParseExtendedDuration "1h" = .ok 3600000000000 := by decide

/-!
## `parseExpirationTime`

Wall-clock instants are `Int` nanoseconds since the Unix epoch.  The four
`time.Parse` layouts tried by `parseExpirationTime`
(`internal/janitor/janitor.go`) are modelled as character-level parsers
with Go's field validation (month 1–12, day within the month, hour ≤ 23,
minute/second ≤ 59, exactly-sized digit fields, no trailing input).  The
civil-calendar to epoch-day conversion is the standard Gregorian formula.
-/

/-- Gregorian leap year. -/
def isLeap (y : Nat) : Bool :=
  y % 4 = 0 && (y % 100 ≠ 0 || y % 400 = 0)

/-- Days in a month, as Go `daysIn`. -/
def daysInMonth (y mo : Nat) : Nat :=
  if mo = 2 then (if isLeap y then 29 else 28)
  else if mo = 4 ∨ mo = 6 ∨ mo = 9 ∨ mo = 11 then 30
  else 31

/-- Days from 1970-01-01 to the given civil date (proleptic Gregorian). -/
def epochDays (y mo d : Nat) : Int :=
  let yi : Int := if mo ≤ 2 then (y : Int) - 1 else (y : Int)
  let era : Int := Int.fdiv yi 400
  let yoe : Int := yi - era * 400
  let mp : Int := if mo > 2 then (mo : Int) - 3 else (mo : Int) + 9
  let doy : Int := Int.fdiv (153 * mp + 2) 5 + (d : Int) - 1
  let doe : Int := yoe * 365 + Int.fdiv yoe 4 - Int.fdiv yoe 100 + doy
  era * 146097 + doe - 719468

/-- Epoch nanoseconds of a civil date-time at a fixed zone offset
(seconds east of UTC), as Go `time.Date(y,mo,d,h,mi,s,ns,zone)`. -/
def mkInstantNs (y mo d h mi s ns : Nat) (offsetSec : Int) : Int :=
  (epochDays y mo d * 86400 + (h : Int) * 3600 + (mi : Int) * 60 + (s : Int) - offsetSec)
      * 1000000000 + (ns : Int)

example : mkInstantNs 1970 1 1 0 0 0 0 0 = 0 := by decide
example : mkInstantNs 2025 1 1 0 0 0 0 0 = 1735689600000000000 := by decide
example : mkInstantNs 1 1 1 0 0 0 0 0 = -62135596800000000000 := by decide

/-- Exactly `n` digits, as a `Nat`, plus the rest of the input. -/
def parseDigitsN (n : Nat) (cs : List Char) : Option (Nat × List Char) :=
  let ds := cs.take n
  if ds.length = n ∧ ds.all Char.isDigit then some (digitsToNat ds, cs.drop n)
  else none

/-- A single literal character. -/
def parseLit (c : Char) : List Char → Option (List Char)
  | c' :: cs => if c' = c then some cs else none
  | [] => none

/-- `YYYY-MM-DD` with Go's month and day range checks. -/
def parseYMD (cs : List Char) : Option (Nat × Nat × Nat × List Char) := do
  let (y, r) ← parseDigitsN 4 cs
  let r ← parseLit '-' r
  let (mo, r) ← parseDigitsN 2 r
  let r ← parseLit '-' r
  let (d, r) ← parseDigitsN 2 r
  if 1 ≤ mo ∧ mo ≤ 12 ∧ 1 ≤ d ∧ d ≤ daysInMonth y mo then pure (y, mo, d, r)
  else none

/-- Two digits bounded by `hi` (hour 23, minute/second 59). -/
def parseBounded2 (hi : Nat) (cs : List Char) : Option (Nat × List Char) := do
  let (v, r) ← parseDigitsN 2 cs
  if v ≤ hi then pure (v, r) else none

/-- Fractional seconds: Go consumes a separator followed by all digits and
keeps the first nine (scaled to nanoseconds).  `dotOnly` restricts the
separator to `'.'` (the strict RFC3339 path); layout-driven parsing also
accepts `','`. -/
def parseFrac (dotOnly : Bool) (cs : List Char) : Nat × List Char :=
  match cs with
  | sep :: c :: rest =>
    if (sep = '.' ∨ (¬dotOnly ∧ sep = ',')) ∧ c.isDigit then
      let ds := (c :: rest).takeWhile Char.isDigit
      let r := (c :: rest).dropWhile Char.isDigit
      (digitsToNat (ds.take 9) * 10 ^ (9 - (ds.take 9).length), r)
    else (0, cs)
  | _ => (0, cs)

/-- Go `time.Parse` with the `time.RFC3339` layout (the strict fast path
of the standard library): date, `'T'`, time, optional `.fraction`, then
`'Z'` or a numeric `±hh:mm` offset, consuming the whole input. -/
def parseRFC3339 (cs : List Char) : Option Int := do
  let (y, mo, d, r) ← parseYMD cs
  let r ← parseLit 'T' r
  let (h, r) ← parseBounded2 23 r
  let r ← parseLit ':' r
  let (mi, r) ← parseBounded2 59 r
  let r ← parseLit ':' r
  let (s, r) ← parseBounded2 59 r
  let fr := parseFrac true r
  let ns := fr.1
  match fr.2 with
  | ['Z'] => pure (mkInstantNs y mo d h mi s ns 0)
  | [sgn, h1, h2, ':', m1, m2] =>
    if (sgn = '+' ∨ sgn = '-') ∧ h1.isDigit ∧ h2.isDigit ∧ m1.isDigit ∧ m2.isDigit then
      let zh := digitsToNat [h1, h2]
      let zm := digitsToNat [m1, m2]
      if zh ≤ 23 ∧ zm ≤ 59 then
        let off : Int := (if sgn = '-' then -1 else 1) * ((zh : Int) * 3600 + (zm : Int) * 60)
        pure (mkInstantNs y mo d h mi s ns off)
      else none
    else none
  | _ => none

/-- Go `time.Parse` with layout `"2006-01-02T15:04:05"`: no zone (UTC),
optional elided fraction after the seconds, no trailing input. -/
def parseNoZoneSec (cs : List Char) : Option Int := do
  let (y, mo, d, r) ← parseYMD cs
  let r ← parseLit 'T' r
  let (h, r) ← parseBounded2 23 r
  let r ← parseLit ':' r
  let (mi, r) ← parseBounded2 59 r
  let r ← parseLit ':' r
  let (s, r) ← parseBounded2 59 r
  let fr := parseFrac false r
  if fr.2.isEmpty then pure (mkInstantNs y mo d h mi s fr.1 0) else none

/-- Go `time.Parse` with layout `"2006-01-02T15:04"`: no seconds, no zone
(UTC), no trailing input. -/
def parseNoZoneMin (cs : List Char) : Option Int := do
  let (y, mo, d, r) ← parseYMD cs
  let r ← parseLit 'T' r
  let (h, r) ← parseBounded2 23 r
  let r ← parseLit ':' r
  let (mi, r) ← parseBounded2 59 r
  if r.isEmpty then pure (mkInstantNs y mo d h mi 0 0 0) else none

/-- Go `time.Parse` with layout `"2006-01-02"`: the date alone, returned
as components so the caller can rebuild midnight UTC as the source does. -/
def parseDateOnly (cs : List Char) : Option (Nat × Nat × Nat) := do
  let (y, mo, d, r) ← parseYMD cs
  if r.isEmpty then pure (y, mo, d) else none

/-- Model of `parseExpirationTime` (`internal/janitor/janitor.go`): try the
four layouts in order and return the first success; for the date-only
layout rebuild the instant as `time.Date(y, mo, d, 0, 0, 0, 0, UTC)`. -/
def parseExpirationTime (s : String) : Except String Int :=
  match parseRFC3339 s.data with
  | some t => .ok t
  | none =>
    match parseNoZoneSec s.data with
    | some t => .ok t
    | none =>
      match parseNoZoneMin s.data with
      | some t => .ok t
      | none =>
        match parseDateOnly s.data with
        | some (y, mo, d) => .ok (mkInstantNs y mo d 0 0 0 0 0)
        | none => .error ("unable to parse expiration time: " ++ s)

example : parseExpirationTime "2024-12-31T23:59:59Z" = .ok 1735689599000000000 := by decide
example : parseExpirationTime "2024-12-31T23:59:59" = .ok 1735689599000000000 := by decide
example : parseExpirationTime "2024-12-31T23:59" = .ok 1735689540000000000 := by decide
example : parseExpirationTime "2024-12-31" = .ok 1735603200000000000 := by decide
example : parseExpirationTime "2024-12-31T23:59:59+01:00" = .ok 1735685999000000000 := by decide
example : (parseExpirationTime "invalid-date").isOk = false := by decide
example : parseExpirationTime "2024-02-30" =
    .error "unable to parse expiration time: 2024-02-30" := by decide

/-!
## Objects and the rules engine

`KObject` models the parts of an unstructured platform object the core
reads: `/kind`, the annotation map (an association list, first key wins as
in a Go map with unique keys), and `/metadata/creationTimestamp`, which is
`none` when the field is absent (Go's `GetCreationTimestamp` then yields
the zero `time.Time`, i.e. 0001-01-01T00:00:00 UTC).

CEL programs are opaque to the repository (an external collaborator), so a
compiled program is modelled as an arbitrary function from the object to a
runtime result; `CelValue` has exactly the shapes the Go type switch in
`evaluateRule` distinguishes.
-/

/-- Runtime value of a rule predicate, as discriminated by the type switch
in `evaluateRule` (`bool`, `string`, `[]interface{}`,
`map[string]interface{}`, anything else). -/
inductive CelValue where
  | bool : Bool → CelValue
  | str : String → CelValue
  | list : List CelValue → CelValue
  | map : List (String × CelValue) → CelValue
  | other : CelValue

/-- The slice of an unstructured object used by the decision logic. -/
structure KObject where
  kind : String
  annotations : List (String × String)
  creationTimestamp : Option Int

/-- Go map lookup on the annotations. -/
def getAnnotation (obj : KObject) (key : String) : Option String :=
  obj.annotations.lookup key

/-- A rule as declared in the YAML file (`rules.Rule`). -/
structure Rule where
  ID : String
  Resources : List String
  Expression : String
  TTL : String
  deriving Repr, DecidableEq

/-- `rules.compiledRule`: the rule, its compiled program, and its parsed
TTL. -/
structure CompiledRule where
  rule : Rule
  program : KObject → Except String CelValue
  ttlDuration : Int

/-- `rules.Engine`. -/
structure Engine where
  rules : List CompiledRule

/-- `pluralize` from the rules package: the fixed special-case table,
falling back to `kind + "s"` with no case change. -/
def pluralize (kind : String) : String :=
  if kind = "Pod" then "pods"
  else if kind = "Service" then "services"
  else if kind = "Deployment" then "deployments"
  else if kind = "StatefulSet" then "statefulsets"
  else if kind = "DaemonSet" then "daemonsets"
  else if kind = "ReplicaSet" then "replicasets"
  else if kind = "ConfigMap" then "configmaps"
  else if kind = "Secret" then "secrets"
  else if kind = "PersistentVolumeClaim" then "persistentvolumeclaims"
  else if kind = "PersistentVolume" then "persistentvolumes"
  else if kind = "Namespace" then "namespaces"
  else if kind = "Ingress" then "ingresses"
  else if kind = "NetworkPolicy" then "networkpolicies"
  else kind ++ "s"

/-- `resourceMatches`: a selector matches if it is `*`, the kind itself,
or the pluralized kind. -/
def resourceMatches (resources : List String) (kind : String) : Bool :=
  resources.any fun r => r == "*" || r == kind || r == pluralize kind

/-- The truthiness coercion of `evaluateRule`'s type switch. -/
def truthy : CelValue → Bool
  | .bool b => b
  | .str s => s != ""
  | .list l => l.length > 0
  | .map m => m.length > 0
  | .other => false

/-- `Engine.evaluateRule`: kind must match, then the program runs; a
runtime error is a non-match; otherwise the result is coerced to a
boolean. -/
def evaluateRule (cr : CompiledRule) (obj : KObject) : Bool :=
  if ¬ resourceMatches cr.rule.Resources obj.kind then false
  else
    match cr.program obj with
    | .error _ => false
    | .ok v => truthy v

/-- The loop of `Engine.Evaluate`. -/
def evalLoop : List CompiledRule → KObject → Option Rule × Int
  | [], _ => (none, 0)
  | cr :: rest, obj =>
    if evaluateRule cr obj then (some cr.rule, cr.ttlDuration) else evalLoop rest obj

/-- `Engine.Evaluate`: first matching rule (in stored order) with its TTL,
`(nil, 0)` when none matches. -/
def Engine.Evaluate (e : Engine) (obj : KObject) : Option Rule × Int :=
  evalLoop e.rules obj

/-- `[a-z]`. -/
def isLowerAZ (c : Char) : Bool := 'a' ≤ c && c ≤ 'z'

/-- `[a-z0-9-]`. -/
def isIDTailChar (c : Char) : Bool := isLowerAZ c || c.isDigit || c == '-'

/-- The anchored `idRegex` of the rules package: `^[a-z][a-z0-9-]*$`. -/
def idMatches (s : String) : Bool :=
  match s.data with
  | [] => false
  | c :: cs => isLowerAZ c && cs.all isIDTailChar

example : idMatches "test-rule" = true := by decide
example : idMatches "Test-Rule" = false := by decide
example : idMatches "" = false := by decide

/-- The load error for a malformed rule ID. -/
def errInvalidID (id : String) : String :=
  "invalid rule ID '" ++ id ++ "': must be lowercase and match ^[a-z][a-z0-9-]*$"

/-- The load error for a malformed TTL. -/
def errInvalidTTL (ttl id cause : String) : String :=
  "invalid TTL '" ++ ttl ++ "' in rule '" ++ id ++ "': " ++ cause

/-- The load error for an uncompilable expression. -/
def errCompileExpr (id cause : String) : String :=
  "failed to compile expression for rule '" ++ id ++ "': " ++ cause

/-- The loop body of `rules.New` (the revision that parses TTLs with
`parseExtendedDuration`, as mandated by spec §4.4; `part_003` also holds a
stale copy using only the native parser).  The CEL environment's
`Compile`/`Program` pair is external code, abstracted as the `compile`
argument.  Rules are validated and compiled in source order; the first
failure aborts with an error naming the offending rule. -/
def newLoop (compile : String → Except String (KObject → Except String CelValue)) :
    List Rule → Except String (List CompiledRule)
  | [] => .ok []
  | r :: rest =>
    if ¬ idMatches r.ID then .error (errInvalidID r.ID)
    else
      match ParseExtendedDuration r.TTL with
      | .error e => .error (errInvalidTTL r.TTL r.ID e)
      | .ok ttl =>
        match compile r.Expression with
        | .error e => .error (errCompileExpr r.ID e)
        | .ok prog =>
          match newLoop compile rest with
          | .error e => .error e
          | .ok crs => .ok (⟨r, prog, ttl⟩ :: crs)

/-- `rules.New`: all-or-nothing construction of the engine. -/
def New (compile : String → Except String (KObject → Except String CelValue))
    (rules : List Rule) : Except String Engine :=
  match newLoop compile rules with
  | .error e => .error e
  | .ok crs => .ok ⟨crs⟩

/-!
## The decision function `shouldDelete`

The reason string built with `fmt.Sprintf` is modelled structurally: each
constructor carries exactly the values the source interpolates (no claim
depends on the decimal rendering of a duration).
-/

/-- Structured model of the reason strings of `shouldDelete`. -/
inductive Reason where
  | noReason : Reason
  | ttlExpired (age ttl : Int) : Reason
  | expirationReached (expires : String) : Reason
  | ruleMatched (id : String) (age ttl : Int) : Reason
  deriving Repr, DecidableEq

/-- The zero `time.Time` (0001-01-01T00:00:00 UTC) in epoch nanoseconds:
what `GetCreationTimestamp` yields when the field is absent. -/
def goZeroTimeNs : Int := mkInstantNs 1 1 1 0 0 0 0 0

/-- `obj.GetCreationTimestamp().Time`. -/
def creationTime (obj : KObject) : Int :=
  obj.creationTimestamp.getD goZeroTimeNs

/-- Go `time.Time.Sub` (hence `time.Since`): the wall-clock difference,
saturating to the `Duration` (int64 nanosecond) range. -/
def goSub (t u : Int) : Int :=
  let d := t - u
  if d < minDuration then minDuration
  else if d > maxDuration then maxDuration
  else d

/-- Model of `Janitor.shouldDelete` with the current instant `now` made
explicit (the source reads it through `time.Since` / `time.Now`). -/
def shouldDelete (now : Int) (engine : Option Engine) (obj : KObject) : Bool × Reason :=
  match getAnnotation obj "janitor/ttl" with
  | some ttl =>
    match ParseExtendedDuration ttl with
    | .error _ => (false, .noReason)
    | .ok duration =>
      let age := goSub now (creationTime obj)
      if age > duration then (true, .ttlExpired age duration) else (false, .noReason)
  | none =>
    match getAnnotation obj "janitor/expires" with
    | some expires =>
      match parseExpirationTime expires with
      | .error _ => (false, .noReason)
      | .ok expirationTime =>
        if expirationTime < now then (true, .expirationReached expires)
        else (false, .noReason)
    | none =>
      match engine with
      | some e =>
        match e.Evaluate obj with
        | (some rule, ttl) =>
          let age := goSub now (creationTime obj)
          if age > ttl then (true, .ruleMatched rule.ID age ttl) else (false, .noReason)
        | (none, _) => (false, .noReason)
      | none => (false, .noReason)

/-!
## Resource filter

`ResourceFilter` (defined alongside the integration tests in
`internal/`): the Go sets are `map[string]bool` built from the constructor
slices; membership is modelled by list containment.
-/

/-- `janitor.ResourceFilter`. -/
structure ResourceFilter where
  includeResources : List String
  excludeResources : List String
  includeNamespaces : List String
  excludeNamespaces : List String
  includeAllResources : Bool
  includeAllNamespaces : Bool

/-- `NewResourceFilter`: empty include slice means include-all. -/
def NewResourceFilter (incR excR incN excN : List String) : ResourceFilter :=
  { includeResources := incR
    excludeResources := excR
    includeNamespaces := incN
    excludeNamespaces := excN
    includeAllResources := incR.isEmpty
    includeAllNamespaces := incN.isEmpty }

/-- `ResourceFilter.ShouldProcessResource`: excludes first, then
include-all, then the include set. -/
def ResourceFilter.ShouldProcessResource (rf : ResourceFilter) (resource : String) : Bool :=
  if rf.excludeResources.contains resource then false
  else if rf.includeAllResources then true
  else rf.includeResources.contains resource

/-- `ResourceFilter.ShouldProcessNamespace`. -/
def ResourceFilter.ShouldProcessNamespace (rf : ResourceFilter) (ns : String) : Bool :=
  if rf.excludeNamespaces.contains ns then false
  else if rf.includeAllNamespaces then true
  else rf.includeNamespaces.contains ns

/-!
## The worker step `processItem`

`processItem` is modelled as a pure function returning the trace of its
observable effects: the computed decision, whether a platform delete call
was issued, the events recorded, and the metric counters incremented.  The
outcome of the (external) delete call is an explicit argument.
-/

/-- An event recorded through the event recorder. -/
inductive JEvent where
  | dryRunDeletion (resource ns name : String) (reason : Reason)
  | resourceDeleted (resource ns name : String) (reason : Reason)
  | deletionFailed (resource ns name : String) (err : String)
  deriving Repr, DecidableEq

/-- A metric counter increment (`internal/metrics` exposes exactly
`ResourcesDeleted`, `ResourcesEvaluated`, `CleanupDuration`, `Errors`). -/
inductive MetricInc where
  | resourcesDeleted (resource ns : String) (reason : Reason)
  | resourcesEvaluated (resource ns : String)
  | errorsCounter (ty : String)
  deriving Repr, DecidableEq

/-- `janitor.WorkItem` (the GVR is reduced to its resource name, the only
part the trace observes). -/
structure WorkItem where
  resource : String
  ns : String
  name : String
  obj : KObject

/-- The observable effects of one `processItem` call. -/
structure ItemTrace where
  decision : Bool × Reason
  deleteIssued : Bool
  events : List JEvent
  metrics : List MetricInc
  deriving DecidableEq

/-- Model of `Janitor.processItem`. -/
def processItem (dryRun : Bool) (now : Int) (engine : Option Engine)
    (item : WorkItem) (deleteOutcome : Except String Unit) : ItemTrace :=
  let dec := shouldDelete now engine item.obj
  if ¬ dec.1 then ⟨dec, false, [], []⟩
  else if dryRun then
    ⟨dec, false, [.dryRunDeletion item.resource item.ns item.name dec.2], []⟩
  else
    match deleteOutcome with
    | .error e =>
      ⟨dec, true, [.deletionFailed item.resource item.ns item.name e],
        [.errorsCounter "delete_resource"]⟩
    | .ok _ =>
      ⟨dec, true, [.resourceDeleted item.resource item.ns item.name dec.2],
        [.resourcesDeleted item.resource item.ns dec.2]⟩

/-!
## Helper lemmas
-/

theorem maxDuration_val : maxDuration = 9223372036854775807 := by decide

theorem minDuration_val : minDuration = -9223372036854775808 := by decide

theorem goZeroTimeNs_val : goZeroTimeNs = -62135596800000000000 := by decide

/-- The kinds with special-case entries in `pluralize`. -/
def pluralizeTableKinds : List String :=
  ["Pod", "Service", "Deployment", "StatefulSet", "DaemonSet", "ReplicaSet",
   "ConfigMap", "Secret", "PersistentVolumeClaim", "PersistentVolume",
   "Namespace", "Ingress", "NetworkPolicy"]

/-!
## Claims
-/

/-- **C7.** Kind matching pluralizes via the fixed table (Pod→pods, …,
NetworkPolicy→networkpolicies); for every kind outside the table the
result is the kind with `"s"` appended and no case change (so
CustomResource→CustomResources); and a selector matches a kind iff it is
`*`, the kind, or the pluralized kind. -/
theorem c7_pluralize_table_and_fallback :
    (pluralize "Pod" = "pods" ∧ pluralize "Service" = "services" ∧
     pluralize "Deployment" = "deployments" ∧ pluralize "StatefulSet" = "statefulsets" ∧
     pluralize "DaemonSet" = "daemonsets" ∧ pluralize "ReplicaSet" = "replicasets" ∧
     pluralize "ConfigMap" = "configmaps" ∧ pluralize "Secret" = "secrets" ∧
     pluralize "PersistentVolumeClaim" = "persistentvolumeclaims" ∧
     pluralize "PersistentVolume" = "persistentvolumes" ∧
     pluralize "Namespace" = "namespaces" ∧ pluralize "Ingress" = "ingresses" ∧
     pluralize "NetworkPolicy" = "networkpolicies")
  ∧ (∀ kind : String, kind ∉ pluralizeTableKinds → pluralize kind = kind ++ "s")
  ∧ pluralize "CustomResource" = "CustomResources"
  ∧ (∀ (resources : List String) (kind : String),
       resourceMatches resources kind = true ↔
         ∃ r ∈ resources, r = "*" ∨ r = kind ∨ r = pluralize kind) := by
  refine ⟨⟨rfl, rfl, rfl, rfl, rfl, rfl, rfl, rfl, rfl, rfl, rfl, rfl, rfl⟩, ?_, rfl, ?_⟩
  · intro kind h
    simp only [pluralizeTableKinds, List.mem_cons, List.not_mem_nil, or_false, not_or] at h
    obtain ⟨h1, h2, h3, h4, h5, h6, h7, h8, h9, h10, h11, h12, h13⟩ := h
    simp [pluralize, h1, h2, h3, h4, h5, h6, h7, h8, h9, h10, h11, h12, h13]
  · intro resources kind
    simp [resourceMatches, List.any_eq_true, Bool.or_eq_true, beq_iff_eq, or_assoc]

/-- Witness for C7 at the concrete off-table kind `CustomResource`. -/
theorem c7_witness :
    "CustomResource" ∉ pluralizeTableKinds ∧
      pluralize "CustomResource" = "CustomResource" ++ "s" :=
  ⟨by decide, c7_pluralize_table_and_fallback.2.1 "CustomResource" (by decide)⟩

/-- **C8.** The resource filter is pure and satisfies
`admit(r) = (r ∉ excludes) ∧ (includeAll ∨ r ∈ includes)` where
`includeAll` holds exactly when the include sequence is empty; excludes
dominate includes even when an element is in both; the same holds for
namespaces. -/
theorem c8_resource_filter (incR excR incN excN : List String) (r ns : String) :
    ((NewResourceFilter incR excR incN excN).ShouldProcessResource r = true ↔
       r ∉ excR ∧ (incR = [] ∨ r ∈ incR))
  ∧ ((NewResourceFilter incR excR incN excN).ShouldProcessNamespace ns = true ↔
       ns ∉ excN ∧ (incN = [] ∨ ns ∈ incN))
  ∧ (r ∈ excR → (NewResourceFilter incR excR incN excN).ShouldProcessResource r = false) := by
  refine ⟨?_, ?_, ?_⟩
  · simp [NewResourceFilter, ResourceFilter.ShouldProcessResource, List.isEmpty_iff]
  · simp [NewResourceFilter, ResourceFilter.ShouldProcessNamespace, List.isEmpty_iff]
  · intro h
    simp [NewResourceFilter, ResourceFilter.ShouldProcessResource, h]

/-- Witness for C8: a resource both included and excluded is rejected;
an empty include list admits everything not excluded. -/
theorem c8_witness :
    (NewResourceFilter ["pods"] ["pods"] [] []).ShouldProcessResource "pods" = false ∧
    ((NewResourceFilter [] [] [] ["kube-system"]).ShouldProcessNamespace "default" = true ↔
       "default" ∉ ["kube-system"] ∧
         (([] : List String) = [] ∨ "default" ∈ ([] : List String))) :=
  ⟨(c8_resource_filter ["pods"] ["pods"] [] [] "pods" "x").2.2 (by decide),
   (c8_resource_filter [] [] [] ["kube-system"] "x" "default").2.1⟩

/-- **C1.** For an object with a `janitor/ttl` annotation the decision is
delete iff the age is strictly greater than the parsed TTL (so at
`age = ttl` it keeps); with `"0s"` and any positive age it deletes; and a
malformed annotation yields keep with no error. -/
theorem c1_ttl_strict_greater (now : Int) (engine : Option Engine) (obj : KObject)
    (ttl : String) (httl : getAnnotation obj "janitor/ttl" = some ttl) :
    (∀ d : Int, ParseExtendedDuration ttl = .ok d →
        ((shouldDelete now engine obj).1 = true ↔ d < goSub now (creationTime obj)))
  ∧ (∀ d : Int, ParseExtendedDuration ttl = .ok d →
        goSub now (creationTime obj) = d → (shouldDelete now engine obj).1 = false)
  ∧ (∀ e, ParseExtendedDuration ttl = .error e →
        shouldDelete now engine obj = (false, .noReason))
  ∧ (ttl = "0s" → 0 < now - creationTime obj →
        (shouldDelete now engine obj).1 = true) := by
  refine ⟨?_, ?_, ?_, ?_⟩
  · intro d hd
    simp only [shouldDelete, httl, hd]
    constructor
    · intro h
      by_contra hlt
      simp [if_neg (by omega : ¬ goSub now (creationTime obj) > d)] at h
    · intro h
      simp [if_pos (by omega : goSub now (creationTime obj) > d)]
  · intro d hd hage
    simp only [shouldDelete, httl, hd, hage]
    simp
  · intro e he
    simp only [shouldDelete, httl, he]
  · intro h0 hpos
    subst h0
    have hd : ParseExtendedDuration "0s" = .ok 0 := by decide
    simp only [shouldDelete, httl, hd]
    have : goSub now (creationTime obj) > 0 := by
      have hgs : goSub now (creationTime obj) =
          if now - creationTime obj < minDuration then minDuration
          else if now - creationTime obj > maxDuration then maxDuration
          else now - creationTime obj := rfl
      rw [hgs, maxDuration_val, minDuration_val]
      split_ifs <;> omega
    simp [if_pos this]

/-- Object with a one-hour TTL created at the epoch. -/
def witObjTTL : KObject := ⟨"Pod", [("janitor/ttl", "1h")], some 0⟩

/-- Object with a malformed TTL. -/
def witObjBadTTL : KObject := ⟨"Pod", [("janitor/ttl", "invalid")], some 0⟩

/-- Object with a zero TTL created at the epoch. -/
def witObjZeroTTL : KObject := ⟨"Pod", [("janitor/ttl", "0s")], some 0⟩

/-- Witness for C1 two hours after the epoch: the 1h-TTL object is
deletable via the strict comparison, the malformed-TTL object is kept,
and the 0s-TTL object is deleted. -/
theorem c1_witness :
    ((shouldDelete 7200000000000 none witObjTTL).1 = true ↔
       (3600000000000 : Int) < goSub 7200000000000 (creationTime witObjTTL))
  ∧ shouldDelete 7200000000000 none witObjBadTTL = (false, .noReason)
  ∧ (shouldDelete 7200000000000 none witObjZeroTTL).1 = true :=
  ⟨(c1_ttl_strict_greater 7200000000000 none witObjTTL "1h" (by decide)).1
      3600000000000 (by decide),
   (c1_ttl_strict_greater 7200000000000 none witObjBadTTL "invalid" (by decide)).2.2.1
      "invalid duration format: invalid" (by decide),
   (c1_ttl_strict_greater 7200000000000 none witObjZeroTTL "0s" (by decide)).2.2.2
      rfl (by decide)⟩

/-- **C3.** When `janitor/ttl` is present (valid or malformed), the
decision reads only the TTL annotation and the creation timestamp: any
two objects agreeing on those — in particular objects differing only in
the presence or value of `janitor/expires` — get the same
(delete, reason) result. -/
theorem c3_expires_no_effect (now : Int) (engine : Option Engine)
    (obj obj' : KObject) (ttl : String)
    (h1 : getAnnotation obj "janitor/ttl" = some ttl)
    (h2 : getAnnotation obj' "janitor/ttl" = some ttl)
    (h3 : creationTime obj = creationTime obj') :
    shouldDelete now engine obj = shouldDelete now engine obj' := by
  simp only [shouldDelete, h1, h2, h3]

/-- Objects for the C3 witness: identical except for `janitor/expires`. -/
def witObjWithExpires : KObject :=
  ⟨"Pod", [("janitor/ttl", "1h"), ("janitor/expires", "2020-01-01")], some 0⟩

/-- Same object without the expiration annotation. -/
def witObjNoExpires : KObject := ⟨"Pod", [("janitor/ttl", "1h")], some 0⟩

/-- Witness for C3: an already-reached `janitor/expires` value is ignored
when `janitor/ttl` is present. -/
theorem c3_witness :
    shouldDelete 600000000000 none witObjWithExpires =
      shouldDelete 600000000000 none witObjNoExpires :=
  c3_expires_no_effect 600000000000 none witObjWithExpires witObjNoExpires "1h"
    (by decide) (by decide) (by decide)

/-- A deletable work item (expired zero TTL) used for C2. -/
def c2Item : WorkItem :=
  ⟨"pods", "default", "test-pod", ⟨"Pod", [("janitor/ttl", "0s")], some 0⟩⟩

/-- **C2 counterexample.** In dry-run mode, for an item whose decision is
delete, the `DryRunDeletion` event fires but the metric increment list is
empty: no metric fires in the dry-run branch (the metrics package defines
no dry-run metric and `processItem` increments none there), refuting the
"and its metric still fire" part of the claim. -/
theorem c2_counterexample :
    (processItem true 3600000000000 none c2Item (.ok ())).decision.1 = true
  ∧ (processItem true 3600000000000 none c2Item (.ok ())).events =
      [.dryRunDeletion "pods" "default" "test-pod" (.ttlExpired 3600000000000 0)]
  ∧ (processItem true 3600000000000 none c2Item (.ok ())).metrics = [] := by decide

/-- **C2 (amended).** When dry-run is enabled, for every work item whose
decision is delete, no delete call is issued, the `DryRunDeletion` event
still fires, and no metric is incremented by the item step (there is no
`DryRunDeletion` metric); the decision itself is computed identically
regardless of the dry-run flag and of the delete outcome. -/
theorem c2_dry_run_frame (now : Int) (engine : Option Engine) (item : WorkItem)
    (outcome : Except String Unit)
    (hdel : (shouldDelete now engine item.obj).1 = true) :
    (processItem true now engine item outcome).deleteIssued = false
  ∧ (processItem true now engine item outcome).events =
      [.dryRunDeletion item.resource item.ns item.name
         (shouldDelete now engine item.obj).2]
  ∧ (processItem true now engine item outcome).metrics = []
  ∧ (∀ (b : Bool) (outcome' : Except String Unit),
       (processItem b now engine item outcome').decision =
         shouldDelete now engine item.obj) := by
  refine ⟨?_, ?_, ?_, ?_⟩
  · simp [processItem, hdel]
  · simp [processItem, hdel]
  · simp [processItem, hdel]
  · intro b outcome'
    cases hb : (shouldDelete now engine item.obj).1 <;>
      cases outcome' <;> cases b <;> simp [processItem, hb]

/-- Witness for C2 (amended) on the concrete deletable item. -/
theorem c2_witness :
    (processItem true 3600000000000 none c2Item (.error "boom")).deleteIssued = false
  ∧ (processItem true 3600000000000 none c2Item (.error "boom")).events =
      [.dryRunDeletion "pods" "default" "test-pod"
         (shouldDelete 3600000000000 none c2Item.obj).2]
  ∧ (processItem true 3600000000000 none c2Item (.error "boom")).metrics = []
  ∧ (∀ (b : Bool) (outcome' : Except String Unit),
       (processItem b 3600000000000 none c2Item outcome').decision =
         shouldDelete 3600000000000 none c2Item.obj) :=
  c2_dry_run_frame 3600000000000 none c2Item (.error "boom") (by decide)

/-- The TTL string of the largest representable Go duration. -/
def maxTTLString : String := "2562047h47m16.854775807s"

/-- Object with the maximal TTL and no creation timestamp. -/
def c10Obj : KObject := ⟨"Pod", [("janitor/ttl", maxTTLString)], none⟩

/-- Noon, 2025-01-01 UTC, in epoch nanoseconds. -/
def now2025 : Int := mkInstantNs 2025 1 1 12 0 0 0 0

/-- **C10 counterexample.** An object with no creation timestamp and the
parseable non-negative TTL `2562047h47m16.854775807s` (the maximum Go
duration) is KEPT at `now` = 2025-01-01T12:00:00Z: `time.Since` of the
zero time saturates to exactly the maximum duration, which is not
strictly greater than the TTL — the claim's "deleted for any non-negative
TTL / never yields keep" fails. -/
theorem c10_counterexample :
    ParseExtendedDuration maxTTLString = .ok maxDuration
  ∧ (0 : Int) ≤ maxDuration
  ∧ c10Obj.creationTimestamp = none
  ∧ (shouldDelete now2025 none c10Obj).1 = false := by decide

/-- **C10 (amended).** For every object with a parseable `janitor/ttl`
and no `/metadata/creationTimestamp`, the age is computed from the zero
time value and, for any modern clock (any `now` at least the maximum
duration after year 1), saturates to exactly the maximum duration
`2^63 - 1` ns; the object is therefore marked delete for every TTL that
parses to a duration strictly below the maximum, and kept only at exactly
the maximum. -/
theorem c10_missing_creation_timestamp (now : Int) (engine : Option Engine)
    (obj : KObject) (ttl : String) (d : Int)
    (httl : getAnnotation obj "janitor/ttl" = some ttl)
    (hct : obj.creationTimestamp = none)
    (hparse : ParseExtendedDuration ttl = .ok d)
    (hnow : goZeroTimeNs + maxDuration ≤ now) :
    goSub now (creationTime obj) = maxDuration
  ∧ ((shouldDelete now engine obj).1 = true ↔ d < maxDuration) := by
  have hzero : creationTime obj = goZeroTimeNs := by
    simp [creationTime, hct]
  have hage : goSub now (creationTime obj) = maxDuration := by
    have hgs : goSub now (creationTime obj) =
        if now - creationTime obj < minDuration then minDuration
        else if now - creationTime obj > maxDuration then maxDuration
        else now - creationTime obj := rfl
    rw [hgs, hzero, maxDuration_val, minDuration_val, goZeroTimeNs_val]
    rw [maxDuration_val, goZeroTimeNs_val] at hnow
    split_ifs <;> omega
  refine ⟨hage, ?_⟩
  simp only [shouldDelete, httl, hparse, hage]
  constructor
  · intro h
    by_contra hlt
    simp [if_neg (by omega : ¬ maxDuration > d)] at h
  · intro h
    simp [if_pos (by omega : maxDuration > d)]

/-- Object with a one-hour TTL and no creation timestamp. -/
def c10WitObj : KObject := ⟨"Pod", [("janitor/ttl", "1h")], none⟩

/-- Witness for C10 (amended): with a 1h TTL and a missing creation
timestamp, the age saturates to the maximum duration and the object is
deleted. -/
theorem c10_witness :
    goSub now2025 (creationTime c10WitObj) = maxDuration
  ∧ ((shouldDelete now2025 none c10WitObj).1 = true ↔
       (3600000000000 : Int) < maxDuration) :=
  c10_missing_creation_timestamp now2025 none c10WitObj "1h" 3600000000000
    (by decide) (by decide) (by decide) (by decide)

/-- `evalLoop` skips over any block of non-matching rules. -/
theorem evalLoop_skip (obj : KObject) :
    ∀ pre rest : List CompiledRule, (∀ cr ∈ pre, evaluateRule cr obj = false) →
      evalLoop (pre ++ rest) obj = evalLoop rest obj := by
  intro pre
  induction pre with
  | nil => intro rest _; rfl
  | cons cr pre ih =>
    intro rest h
    have hcr : evaluateRule cr obj = false := h cr (by simp)
    simp only [List.cons_append, evalLoop, hcr, Bool.false_eq_true, if_false]
    exact ih rest fun c hc => h c (by simp [hc])

/-- **C5.** Rule evaluation walks the stored rules in order and returns
the first rule whose kind matches and whose predicate result coerces to
truthy, with that rule's TTL; with no match it returns `(nil, 0)`; a
runtime evaluation error is a non-match; and the truthiness coercion
passes booleans through, treats non-empty strings/lists/maps as truthy,
and everything else as falsy. -/
theorem c5_rule_evaluation (e : Engine) (obj : KObject) :
    (∀ (pre : List CompiledRule) (cr : CompiledRule) (post : List CompiledRule),
       e.rules = pre ++ cr :: post →
       (∀ cr' ∈ pre, evaluateRule cr' obj = false) →
       evaluateRule cr obj = true →
       e.Evaluate obj = (some cr.rule, cr.ttlDuration))
  ∧ ((∀ cr ∈ e.rules, evaluateRule cr obj = false) → e.Evaluate obj = (none, 0))
  ∧ (∀ (cr : CompiledRule) (err : String), cr.program obj = .error err →
       evaluateRule cr obj = false)
  ∧ (∀ cr : CompiledRule, evaluateRule cr obj = true ↔
       resourceMatches cr.rule.Resources obj.kind = true ∧
         ∃ v, cr.program obj = .ok v ∧ truthy v = true)
  ∧ (∀ b, truthy (.bool b) = b)
  ∧ (∀ s : String, truthy (.str s) = true ↔ s ≠ "")
  ∧ (∀ l : List CelValue, truthy (.list l) = true ↔ l ≠ [])
  ∧ (∀ m : List (String × CelValue), truthy (.map m) = true ↔ m ≠ [])
  ∧ truthy .other = false := by
  refine ⟨?_, ?_, ?_, ?_, fun _ => rfl, ?_, ?_, ?_, rfl⟩
  · intro pre cr post hrules hpre hcr
    unfold Engine.Evaluate
    rw [hrules, evalLoop_skip obj pre _ hpre]
    simp [evalLoop, hcr]
  · intro h
    unfold Engine.Evaluate
    have := evalLoop_skip obj e.rules [] h
    simpa using this
  · intro cr err herr
    by_cases hm : resourceMatches cr.rule.Resources obj.kind = true <;>
      simp [evaluateRule, hm, herr]
  · intro cr
    by_cases hm : resourceMatches cr.rule.Resources obj.kind = true
    · cases hp : cr.program obj with
      | ok v => simp [evaluateRule, hm, hp]
      | error err => simp [evaluateRule, hm, hp]
    · simp [evaluateRule, hm]
  · intro s
    simp [truthy, bne_iff_ne]
  · intro l
    simp [truthy, List.length_pos]
  · intro m
    simp [truthy, List.length_pos]

/-- A rule whose predicate always fails at runtime. -/
def witRule1 : Rule := ⟨"err-rule", ["*"], "object.bad", "1h"⟩

/-- A rule matching deployments with a constant-true predicate. -/
def witRule2 : Rule := ⟨"pr-dep", ["deployments"], "true", "4h"⟩

/-- Compiled form of `witRule1`. -/
def witCR1 : CompiledRule := ⟨witRule1, fun _ => .error "no such key", 3600000000000⟩

/-- Compiled form of `witRule2`. -/
def witCR2 : CompiledRule := ⟨witRule2, fun _ => .ok (.bool true), 14400000000000⟩

/-- Engine holding the two witness rules in order. -/
def witEngine : Engine := ⟨[witCR1, witCR2]⟩

/-- A deployment object. -/
def witDeployment : KObject := ⟨"Deployment", [], some 0⟩

/-- Witness for C5: the first rule errors at runtime (a non-match), so the
second rule wins with its TTL. -/
theorem c5_witness :
    witEngine.Evaluate witDeployment = (some witRule2, 14400000000000)
  ∧ evaluateRule witCR1 witDeployment = false :=
  ⟨(c5_rule_evaluation witEngine witDeployment).1 [witCR1] witCR2 [] rfl
      (by intro cr' h; rw [List.mem_singleton] at h; subst h; decide) (by decide),
   (c5_rule_evaluation witEngine witDeployment).2.2.1 witCR1 "no such key" rfl⟩

/-- A rule passing all three load-time checks of `rules.New`. -/
def ruleOK (compile : String → Except String (KObject → Except String CelValue))
    (r : Rule) : Prop :=
  idMatches r.ID = true ∧ (ParseExtendedDuration r.TTL).isOk = true ∧
    (compile r.Expression).isOk = true

/-- `newLoop` on a list headed by a failing rule yields that rule's
error. -/
theorem newLoop_error_head
    (compile : String → Except String (KObject → Except String CelValue))
    (bad : Rule) (rest : List Rule) (hbad : ¬ ruleOK compile bad) :
    ∃ e, newLoop compile (bad :: rest) = .error e ∧
      (e = errInvalidID bad.ID ∨ (∃ c, e = errInvalidTTL bad.TTL bad.ID c) ∨
        ∃ c, e = errCompileExpr bad.ID c) := by
  by_cases hid : idMatches bad.ID = true
  · cases ht : ParseExtendedDuration bad.TTL with
    | error c =>
      exact ⟨errInvalidTTL bad.TTL bad.ID c, by simp [newLoop, hid, ht],
        Or.inr (Or.inl ⟨c, rfl⟩)⟩
    | ok d =>
      cases hc : compile bad.Expression with
      | error c =>
        exact ⟨errCompileExpr bad.ID c, by simp [newLoop, hid, ht, hc],
          Or.inr (Or.inr ⟨c, rfl⟩)⟩
      | ok p =>
        exact absurd ⟨hid, by simp [ht, Except.isOk, Except.toBool], by simp [hc, Except.isOk, Except.toBool]⟩ hbad
  · exact ⟨errInvalidID bad.ID, by simp [newLoop, hid], Or.inl rfl⟩

/-- `newLoop` propagates an error unchanged over a block of valid
rules. -/
theorem newLoop_skip_ok
    (compile : String → Except String (KObject → Except String CelValue)) :
    ∀ pre : List Rule, (∀ r ∈ pre, ruleOK compile r) →
      ∀ (tail : List Rule) (e : String), newLoop compile tail = .error e →
        newLoop compile (pre ++ tail) = .error e := by
  intro pre
  induction pre with
  | nil => intro _ tail e he; simpa using he
  | cons r pre ih =>
    intro h tail e he
    obtain ⟨hid, httl, hcomp⟩ := h r (by simp)
    obtain ⟨d, hd⟩ : ∃ d, ParseExtendedDuration r.TTL = .ok d := by
      cases hpt : ParseExtendedDuration r.TTL with
      | ok d => exact ⟨d, rfl⟩
      | error c => rw [hpt] at httl; simp [Except.isOk, Except.toBool] at httl
    obtain ⟨p, hp⟩ : ∃ p, compile r.Expression = .ok p := by
      cases hpc : compile r.Expression with
      | ok p => exact ⟨p, rfl⟩
      | error c => rw [hpc] at hcomp; simp [Except.isOk, Except.toBool] at hcomp
    have hrest := ih (fun r' hr' => h r' (by simp [hr'])) tail e he
    simp [newLoop, hid, hd, hp, hrest]

/-- `newLoop` on all-valid rules compiles and stores every rule in
order. -/
theorem newLoop_ok_of_all
    (compile : String → Except String (KObject → Except String CelValue)) :
    ∀ rules : List Rule, (∀ r ∈ rules, ruleOK compile r) →
      ∃ crs, newLoop compile rules = .ok crs ∧
        List.Forall₂ (fun (cr : CompiledRule) (r : Rule) =>
            cr.rule = r ∧ ParseExtendedDuration r.TTL = .ok cr.ttlDuration ∧
              compile r.Expression = .ok cr.program)
          crs rules := by
  intro rules
  induction rules with
  | nil => exact fun _ => ⟨[], rfl, List.Forall₂.nil⟩
  | cons r rs ih =>
    intro h
    obtain ⟨hid, httl, hcomp⟩ := h r (by simp)
    obtain ⟨d, hd⟩ : ∃ d, ParseExtendedDuration r.TTL = .ok d := by
      cases hpt : ParseExtendedDuration r.TTL with
      | ok d => exact ⟨d, rfl⟩
      | error c => rw [hpt] at httl; simp [Except.isOk, Except.toBool] at httl
    obtain ⟨p, hp⟩ : ∃ p, compile r.Expression = .ok p := by
      cases hpc : compile r.Expression with
      | ok p => exact ⟨p, rfl⟩
      | error c => rw [hpc] at hcomp; simp [Except.isOk, Except.toBool] at hcomp
    obtain ⟨crs, hcrs, hfa⟩ := ih fun r' hr' => h r' (by simp [hr'])
    refine ⟨⟨r, p, d⟩ :: crs, ?_, List.Forall₂.cons ⟨rfl, by rw [hd], by rw [hp]⟩ hfa⟩
    simp [newLoop, hid, hd, hp, hcrs]

/-- **C6.** Loading rules is all-or-nothing: a rule with an ID failing
`^[a-z][a-z0-9-]*$`, a TTL the extended duration parser rejects, or an
uncompilable expression makes `rules.New` return an error naming that
rule and construct no engine; otherwise every rule is compiled and stored
in order with its parsed TTL (the extended grammar, so `"7d"` is
valid). -/
theorem c6_load_all_or_nothing
    (compile : String → Except String (KObject → Except String CelValue)) :
    (∀ (pre : List Rule) (bad : Rule) (rest : List Rule),
       (∀ r ∈ pre, ruleOK compile r) → ¬ ruleOK compile bad →
       ∃ e, New compile (pre ++ bad :: rest) = .error e ∧
         (e = errInvalidID bad.ID ∨ (∃ c, e = errInvalidTTL bad.TTL bad.ID c) ∨
           ∃ c, e = errCompileExpr bad.ID c))
  ∧ (∀ rules : List Rule, (∀ r ∈ rules, ruleOK compile r) →
       ∃ eng, New compile rules = .ok eng ∧
         List.Forall₂ (fun (cr : CompiledRule) (r : Rule) =>
             cr.rule = r ∧ ParseExtendedDuration r.TTL = .ok cr.ttlDuration ∧
               compile r.Expression = .ok cr.program)
           eng.rules rules)
  ∧ ParseExtendedDuration "7d" = .ok 604800000000000
  ∧ idMatches "test-rule" = true ∧ idMatches "Test-Rule" = false := by
  refine ⟨?_, ?_, by decide, by decide, by decide⟩
  · intro pre bad rest hpre hbad
    obtain ⟨e, he, hshape⟩ := newLoop_error_head compile bad rest hbad
    refine ⟨e, ?_, hshape⟩
    have := newLoop_skip_ok compile pre hpre (bad :: rest) e he
    simp [New, this]
  · intro rules h
    obtain ⟨crs, hcrg, hfa⟩ := newLoop_ok_of_all compile rules h
    exact ⟨⟨crs⟩, by simp [New, hcrg], hfa⟩

/-- A concrete stand-in for the CEL compiler: accepts only `"true"`. -/
def witCompile : String → Except String (KObject → Except String CelValue) :=
  fun s => if s = "true" then .ok (fun _ => .ok (.bool true)) else .error "unsupported expression"

/-- A rule valid under `witCompile`, with an extended-grammar TTL. -/
def witGoodRule : Rule := ⟨"pr-dep", ["deployments"], "true", "7d"⟩

/-- A rule with an uppercase (invalid) ID. -/
def witBadRule : Rule := ⟨"Test-Rule", ["pods"], "true", "1h"⟩

/-- Witness for C6: a list with an invalid rule fails to load with an
error naming it; the valid singleton list loads completely. -/
theorem c6_witness :
    (∃ e, New witCompile [witGoodRule, witBadRule] = .error e ∧
       (e = errInvalidID witBadRule.ID ∨
         (∃ c, e = errInvalidTTL witBadRule.TTL witBadRule.ID c) ∨
         ∃ c, e = errCompileExpr witBadRule.ID c))
  ∧ ∃ eng, New witCompile [witGoodRule] = .ok eng ∧
      List.Forall₂ (fun (cr : CompiledRule) (r : Rule) =>
          cr.rule = r ∧ ParseExtendedDuration r.TTL = .ok cr.ttlDuration ∧
            witCompile r.Expression = .ok cr.program)
        eng.rules [witGoodRule] :=
  ⟨(c6_load_all_or_nothing witCompile).1 [witGoodRule] witBadRule []
      (by
        intro r h
        rw [List.mem_singleton] at h
        subst h
        exact ⟨by decide, by decide, by decide⟩)
      (fun hok => absurd hok.1 (by decide)),
   (c6_load_all_or_nothing witCompile).2.1 [witGoodRule]
      (by
        intro r h
        rw [List.mem_singleton] at h
        subst h
        exact ⟨by decide, by decide, by decide⟩)⟩

/-- A successful `matchUnit` returns one of the tried alternatives. -/
theorem matchUnit_mem :
    ∀ (us : List (List Char)) (cs u rest : List Char),
      matchUnit us cs = some (u, rest) → u ∈ us := by
  intro us
  induction us with
  | nil => intro cs u rest h; simp [matchUnit] at h
  | cons v vs ih =>
    intro cs u rest h
    unfold matchUnit at h
    cases hd : dropLit v cs with
    | some r =>
      rw [hd] at h
      simp only [Option.some.injEq, Prod.mk.injEq] at h
      rw [← h.1]
      exact List.mem_cons_self v vs
    | none =>
      rw [hd] at h
      exact List.mem_cons_of_mem _ (ih cs u rest h)

/-- A successful `matchSpacesUnit` returns a unit of the alternation. -/
theorem matchSpacesUnit_mem (cs sp u rest : List Char)
    (h : matchSpacesUnit cs = some (sp, u, rest)) : u ∈ unitAlternatives := by
  unfold matchSpacesUnit at h
  cases hm : matchUnit unitAlternatives (cs.dropWhile isGoSpace) with
  | none => rw [hm] at h; simp at h
  | some pr =>
    obtain ⟨u', rest'⟩ := pr
    rw [hm] at h
    simp only [Option.some.injEq, Prod.mk.injEq] at h
    exact h.2.1 ▸ matchUnit_mem unitAlternatives _ u' rest' hm

/-- The fraction arm produces a token whose unit is in the alternation. -/
theorem matchTokenFrac_unit (ds r1 : List Char) (t : DurToken) (rest : List Char)
    (h : matchTokenFrac ds r1 = some (t, rest)) : t.unit ∈ unitAlternatives := by
  cases r1 with
  | nil => simp [matchTokenFrac] at h
  | cons c r2 =>
    by_cases hc : c = '.'
    · subst hc
      simp only [matchTokenFrac] at h
      rw [if_pos trivial] at h
      by_cases hd : (r2.takeWhile Char.isDigit).isEmpty
      · rw [if_pos hd] at h
        exact Option.noConfusion h
      · rw [if_neg hd] at h
        cases hs : matchSpacesUnit (r2.dropWhile Char.isDigit) with
        | none => rw [hs] at h; exact Option.noConfusion h
        | some pr =>
          obtain ⟨sp, u, rest'⟩ := pr
          rw [hs] at h
          simp only [Option.some.injEq, Prod.mk.injEq] at h
          obtain ⟨ht, -⟩ := h
          subst ht
          exact matchSpacesUnit_mem _ _ _ _ hs
    · simp only [matchTokenFrac] at h
      rw [if_neg hc] at h
      exact Option.noConfusion h

/-- Any token produced by `matchTokenAt` has a unit of the alternation. -/
theorem matchTokenAt_unit (cs : List Char) (t : DurToken) (rest : List Char)
    (h : matchTokenAt cs = some (t, rest)) : t.unit ∈ unitAlternatives := by
  unfold matchTokenAt at h
  split at h
  · simp at h
  · cases hf : matchTokenFrac (cs.takeWhile Char.isDigit) (cs.dropWhile Char.isDigit) with
    | some pr =>
      rw [hf] at h
      obtain ⟨t', rest'⟩ := pr
      simp only [Option.some.injEq] at h
      cases h
      exact matchTokenFrac_unit _ _ _ _ hf
    | none =>
      rw [hf] at h
      cases hs : matchSpacesUnit (cs.dropWhile Char.isDigit) with
      | none => rw [hs] at h; simp at h
      | some pr =>
        obtain ⟨sp, u, rest'⟩ := pr
        rw [hs] at h
        simp only [Option.some.injEq, Prod.mk.injEq] at h
        obtain ⟨ht, -⟩ := h
        subst ht
        exact matchSpacesUnit_mem _ _ _ _ hs

/-- Every token found by the scanner has a unit of the alternation. -/
theorem findTokensAux_unit :
    ∀ (fuel : Nat) (cs : List Char) (t : DurToken),
      t ∈ findTokensAux fuel cs → t.unit ∈ unitAlternatives := by
  intro fuel
  induction fuel with
  | zero => intro cs t ht; cases cs <;> simp [findTokensAux] at ht
  | succ n ih =>
    intro cs t ht
    cases cs with
    | nil => simp [findTokensAux] at ht
    | cons c cs' =>
      simp only [findTokensAux] at ht
      cases hm : matchTokenAt (c :: cs') with
      | some pr =>
        obtain ⟨t', rest⟩ := pr
        rw [hm] at ht
        rcases List.mem_cons.mp ht with h | h
        · exact h ▸ matchTokenAt_unit _ _ _ hm
        · exact ih rest t h
      | none =>
        rw [hm] at ht
        exact ih cs' t ht

/-- A token whose unit is in the alternation has a duration (the
`unknown time unit` default of the switch is unreachable for
regex-produced tokens). -/
theorem tokenNs_isSome_of_mem (t : DurToken) (h : t.unit ∈ unitAlternatives) :
    (tokenNs t).isSome = true := by
  have hu : (extUnitNs t.unit).isSome = true := by
    simp only [unitAlternatives, List.mem_cons, List.not_mem_nil, or_false] at h
    rcases h with h | h | h | h | h | h | h | h | h | h | h <;> rw [h] <;> decide
  unfold tokenNs
  cases he : extUnitNs t.unit with
  | none => rw [he] at hu; simp at hu
  | some u => simp

/-- Summation of tokens with known units cannot fail. -/
theorem sumTokens_ok :
    ∀ ts : List DurToken, (∀ t ∈ ts, (tokenNs t).isSome = true) →
      ∃ n, sumTokens ts = .ok n := by
  intro ts
  induction ts with
  | nil => exact fun _ => ⟨0, rfl⟩
  | cons t ts ih =>
    intro h
    obtain ⟨n, hn⟩ := Option.isSome_iff_exists.mp (h t (by simp))
    obtain ⟨m, hm⟩ := ih fun t' ht' => h t' (by simp [ht'])
    exact ⟨n + m, by simp [sumTokens, hn, hm]⟩

/-- **C4.** The extended duration parser accepts `"1month2w3d12h30m"` as
exactly 47d12h30m, rejects `"2w3x"`, `"invalid"`, and `""` with an
error; and whenever the native parser fails, the regex finds at least one
token, and the whitespace-stripped input differs from the
whitespace-stripped concatenation of the matched substrings, the input is
rejected as malformed — the completeness check that blocks
partially-matching inputs. -/
theorem c4_extended_duration_grammar :
    ParseExtendedDuration "1month2w3d12h30m" = .ok 4105800000000000
  ∧ (∃ e, ParseExtendedDuration "2w3x" = .error e)
  ∧ (∃ e, ParseExtendedDuration "invalid" = .error e)
  ∧ (∃ e, ParseExtendedDuration "" = .error e)
  ∧ (∀ s : String, goParseDuration s = none →
       findTokens s.data ≠ [] →
       stripSpaces s.data ≠
         stripSpaces ((findTokens s.data).map DurToken.whole).flatten →
       ParseExtendedDuration s = .error ("invalid duration format: " ++ s)) := by
  refine ⟨by decide, ⟨"invalid duration format: 2w3x", by decide⟩,
    ⟨"invalid duration format: invalid", by decide⟩,
    ⟨"invalid duration format: ", by decide⟩, ?_⟩
  intro s hgo htoks hdiff
  obtain ⟨n, hn⟩ := sumTokens_ok (findTokens s.data) fun t ht =>
    tokenNs_isSome_of_mem t (findTokensAux_unit s.data.length s.data t ht)
  unfold ParseExtendedDuration
  simp only [hgo, List.isEmpty_iff]
  rw [if_neg htoks]
  simp only [hn]
  rw [if_pos hdiff]

/-- Witness for C4's completeness conjunct at the concrete partially
matching input `"2w3x"`: the scanner finds `"2w"` only, the stripped
strings differ, and the parse is rejected. -/
theorem c4_witness :
    goParseDuration "2w3x" = none
  ∧ findTokens "2w3x".data ≠ []
  ∧ stripSpaces "2w3x".data ≠
      stripSpaces ((findTokens "2w3x".data).map DurToken.whole).flatten
  ∧ ParseExtendedDuration "2w3x" = .error ("invalid duration format: " ++ "2w3x") :=
  ⟨by decide, by decide, by decide,
   c4_extended_duration_grammar.2.2.2.2 "2w3x" (by decide) (by decide) (by decide)⟩

/-- **C9.** The expiration parser tries RFC3339, then
`YYYY-MM-DDTHH:MM:SS`, then `YYYY-MM-DDTHH:MM`, then `YYYY-MM-DD` (mapped
to midnight UTC), returning the first that parses and an error when none
match; and for a valid `janitor/expires` annotation (with no TTL
annotation) the decision is strictly after: delete iff `now` is strictly
later than the expiration instant, so at `now = expires` the object is
kept. -/
theorem c9_expiration_order_and_strict_after :
    (∀ (s : String) (t : Int), parseRFC3339 s.data = some t →
       parseExpirationTime s = .ok t)
  ∧ (∀ (s : String) (t : Int), parseRFC3339 s.data = none →
       parseNoZoneSec s.data = some t → parseExpirationTime s = .ok t)
  ∧ (∀ (s : String) (t : Int), parseRFC3339 s.data = none →
       parseNoZoneSec s.data = none → parseNoZoneMin s.data = some t →
       parseExpirationTime s = .ok t)
  ∧ (∀ (s : String) (y mo d : Nat), parseRFC3339 s.data = none →
       parseNoZoneSec s.data = none → parseNoZoneMin s.data = none →
       parseDateOnly s.data = some (y, mo, d) →
       parseExpirationTime s = .ok (mkInstantNs y mo d 0 0 0 0 0))
  ∧ (∀ s : String, parseRFC3339 s.data = none → parseNoZoneSec s.data = none →
       parseNoZoneMin s.data = none → parseDateOnly s.data = none →
       parseExpirationTime s = .error ("unable to parse expiration time: " ++ s))
  ∧ (∀ (now : Int) (engine : Option Engine) (obj : KObject) (expStr : String)
       (expT : Int),
       getAnnotation obj "janitor/ttl" = none →
       getAnnotation obj "janitor/expires" = some expStr →
       parseExpirationTime expStr = .ok expT →
       ((shouldDelete now engine obj).1 = true ↔ expT < now)) := by
  refine ⟨?_, ?_, ?_, ?_, ?_, ?_⟩
  · intro s t h1
    simp [parseExpirationTime, h1]
  · intro s t h1 h2
    simp [parseExpirationTime, h1, h2]
  · intro s t h1 h2 h3
    simp [parseExpirationTime, h1, h2, h3]
  · intro s y mo d h1 h2 h3 h4
    simp [parseExpirationTime, h1, h2, h3, h4]
  · intro s h1 h2 h3 h4
    simp [parseExpirationTime, h1, h2, h3, h4]
  · intro now engine obj expStr expT httl hexp hparse
    simp only [shouldDelete, httl, hexp, hparse]
    by_cases hlt : expT < now
    · simp [if_pos hlt, hlt]
    · simp [if_neg hlt, hlt]

/-- Object carrying only an expiration annotation. -/
def witObjExpires : KObject :=
  ⟨"Deployment", [("janitor/expires", "2024-12-31T23:59:59Z")], some 0⟩

/-- Witness for C9 at the concrete formats of the test-suite and the
boundary `now = expires` (kept) plus one nanosecond later (deleted). -/
theorem c9_witness :
    parseExpirationTime "2024-12-31T23:59:59Z" = .ok 1735689599000000000
  ∧ parseExpirationTime "2024-12-31T23:59:59" = .ok 1735689599000000000
  ∧ parseExpirationTime "2024-12-31T23:59" = .ok 1735689540000000000
  ∧ parseExpirationTime "2024-12-31" = .ok (mkInstantNs 2024 12 31 0 0 0 0 0)
  ∧ parseExpirationTime "invalid-date" =
      .error ("unable to parse expiration time: " ++ "invalid-date")
  ∧ ((shouldDelete 1735689599000000000 none witObjExpires).1 = true ↔
       (1735689599000000000 : Int) < 1735689599000000000)
  ∧ ((shouldDelete 1735689599000000001 none witObjExpires).1 = true ↔
       (1735689599000000000 : Int) < 1735689599000000001) :=
  ⟨c9_expiration_order_and_strict_after.1 "2024-12-31T23:59:59Z" _ (by decide),
   c9_expiration_order_and_strict_after.2.1 "2024-12-31T23:59:59" _ (by decide) (by decide),
   c9_expiration_order_and_strict_after.2.2.1 "2024-12-31T23:59" _ (by decide) (by decide)
     (by decide),
   c9_expiration_order_and_strict_after.2.2.2.1 "2024-12-31" 2024 12 31 (by decide)
     (by decide) (by decide) (by decide),
   c9_expiration_order_and_strict_after.2.2.2.2.1 "invalid-date" (by decide) (by decide)
     (by decide) (by decide),
   c9_expiration_order_and_strict_after.2.2.2.2.2 1735689599000000000 none witObjExpires
     "2024-12-31T23:59:59Z" 1735689599000000000 (by decide) (by decide) (by decide),
   c9_expiration_order_and_strict_after.2.2.2.2.2 1735689599000000001 none witObjExpires
     "2024-12-31T23:59:59Z" 1735689599000000000 (by decide) (by decide) (by decide)⟩

end KubeJanitor
